import Mathlib

/-!
Verification of the background-job execution core of `asyncgit`
(`src/asyncgit/src/fetch.rs`, `AsyncFetch`).

The shared mutable state of one `AsyncFetch` instance (the three
mutex-guarded slots plus the notification channel contents) is embedded as
an explicit record `AsyncFetchState`.  Each Rust method becomes a Lean
function on that record; a possibly-poisoned mutex is passed as a `Bool`
flag (`true` = the lock call fails) and lock failure is returned as
`Except.error`, mirroring the `?` propagation in the source.

The worker closure spawned by `request` (fetch.rs lines 84-114) is embedded
as a trace of atomic actions on the shared state, in happens-before order:
the progress-relay thread's actions are totally ordered among themselves,
every executor-produced progress event is enqueued before the `Done`
sentinel (the sentinel is sent on the worker thread after `fetch_origin`
returns, through a FIFO channel), and `handle.join()` orders every relay
action before `set_result` / `clear_request` / the final notification.
-/

/-- Modelled from the spec: a basic authentication credential
(`sync/cred.rs` is not part of the provided sources); the spec only needs
it as an opaque value cloned with the request. -/
structure BasicAuthCredential where
  username : String
  password : String
deriving DecidableEq, Repr

/-- `FetchRequest` from fetch.rs lines 16-24. -/
structure FetchRequest where
  remote : String
  branch : String
  basic_credential : Option BasicAuthCredential
deriving DecidableEq, Repr

/-- `FetchState` from fetch.rs lines 26-29: the single-flight marker
holding the request that started the job. -/
structure FetchState where
  request : FetchRequest
deriving DecidableEq, Repr

/-- Modelled from the spec: a progress event travelling through the
private channel (`ProgressNotification` lives in `sync/remotes/push.rs`,
not in the provided sources).  Per spec section 4.2 / section 6 it is either a
`\x7bphase, current, total\x7d`-shaped event or the terminal `Done` sentinel. -/
inductive ProgressNotification where
  | Event (phase : String) (current : Nat) (total : Nat)
  | Done
deriving DecidableEq, Repr

/-- Modelled from the spec: the UI-facing normalized snapshot
(`RemoteProgress`, also from `push.rs`): the normalized form of a
non-terminal progress event. -/
structure RemoteProgress where
  phase : String
  current : Nat
  total : Nat
deriving DecidableEq, Repr

/-- Modelled from the spec: the conversion `ProgressNotification ->
RemoteProgress` used by the `progress()` accessor (the `.into()` at
fetch.rs line 65).  The relay only ever stores non-terminal events, so the
`Done` branch is never read; it normalizes to a zero snapshot. -/
def toRemoteProgress : ProgressNotification → RemoteProgress
  | ProgressNotification.Event phase current total => ⟨phase, current, total⟩
  | ProgressNotification.Done => ⟨"", 0, 0⟩

/-- The notification tag sent to the foreground.  The source sends
`AsyncNotification::Fetch` both for progress ticks and for completion. -/
inductive AsyncNotification where
  | Fetch
deriving DecidableEq, Repr

/-- Modelled from the spec: the crate error type (`error.rs` is not in the
provided sources).  `Generic` appears verbatim at fetch.rs line 123; lock
poisoning is converted into an error value by the `?` on `lock()`. -/
inductive Error where
  | Generic (msg : String)
  | PoisonError
deriving DecidableEq, Repr

/-- Modelled from the spec: the rendering `e.to_string()` used at
fetch.rs line 153. -/
def Error.message : Error → String
  | Error.Generic msg => msg
  | Error.PoisonError => "lock poisoned"

/-- The shared mutable state reachable from one `AsyncFetch` instance:
the three mutex-guarded slots (fetch.rs lines 33-35) plus the contents of
the crossbeam notification channel, oldest first. -/
structure AsyncFetchState where
  state : Option FetchState
  last_result : Option (Nat × String)
  progress : Option ProgressNotification
  notifications : List AsyncNotification
deriving DecidableEq, Repr

/-- Poison flags for the three mutexes; `true` means acquiring that lock
fails. -/
structure Locks where
  state : Bool
  lastResult : Bool
  progress : Bool
deriving DecidableEq, Repr

/-- All three locks healthy. -/
def Locks.clean : Locks := ⟨false, false, false⟩

namespace AsyncFetch

/-- `AsyncFetch::new` (fetch.rs lines 41-48): all slots empty, channel
empty. -/
def new : AsyncFetchState := ⟨none, none, none, []⟩

/-- `AsyncFetch::is_pending` (fetch.rs lines 51-54): lock the state slot,
report whether it holds a `FetchState`. -/
def is_pending (poisoned : Bool) (s : AsyncFetchState) : Except Error Bool :=
  if poisoned then Except.error Error.PoisonError
  else Except.ok s.state.isSome

/-- `AsyncFetch::last_result` (fetch.rs lines 57-60): lock the result
slot and clone its contents. -/
def last_result (poisoned : Bool) (s : AsyncFetchState) :
    Except Error (Option (Nat × String)) :=
  if poisoned then Except.error Error.PoisonError
  else Except.ok s.last_result

/-- `AsyncFetch::progress` (fetch.rs lines 63-66): lock the progress slot
and map its contents into a `RemoteProgress`. -/
def progress (poisoned : Bool) (s : AsyncFetchState) :
    Except Error (Option RemoteProgress) :=
  if poisoned then Except.error Error.PoisonError
  else Except.ok (s.progress.map toRemoteProgress)

/-- `AsyncFetch::set_request` (fetch.rs lines 119-131): lock the state
slot; if a job is already recorded return `Error::Generic("pending
request")` without mutating, otherwise install a `FetchState` holding a
clone of `params`. -/
def set_request (poisoned : Bool) (s : AsyncFetchState) (params : FetchRequest) :
    AsyncFetchState × Except Error Unit :=
  if poisoned then (s, Except.error Error.PoisonError)
  else if s.state.isSome then (s, Except.error (Error.Generic "pending request"))
  else ({ s with state := some ⟨params⟩ }, Except.ok ())

/-- `AsyncFetch::clear_request` (fetch.rs lines 133-141): lock the state
slot and set it to `None`. -/
def clear_request (poisoned : Bool) (s : AsyncFetchState) :
    AsyncFetchState × Except Error Unit :=
  if poisoned then (s, Except.error Error.PoisonError)
  else ({ s with state := none }, Except.ok ())

/-- The value `AsyncFetch::set_result` (fetch.rs lines 143-158) stores:
`Ok(bytes)` becomes `(bytes, "")`; `Err(e)` becomes `(0, e.to_string())`. -/
def resultRecord : Except Error Nat → Nat × String
  | Except.ok bytes => (bytes, "")
  | Except.error e => (0, e.message)

/-- `AsyncFetch::set_result` (fetch.rs lines 143-158): lock the result
slot and overwrite it with the record for the executor outcome. -/
def set_result (poisoned : Bool) (s : AsyncFetchState) (res : Except Error Nat) :
    AsyncFetchState × Except Error Unit :=
  if poisoned then (s, Except.error Error.PoisonError)
  else ({ s with last_result := some (resultRecord res) }, Except.ok ())

/-- Modelled from the spec: `RemoteProgress::set_progress` (from
`push.rs`), used at fetch.rs line 77 to reset the snapshot and by the
relay to store each event: lock the progress slot and overwrite it. -/
def set_progress (poisoned : Bool) (s : AsyncFetchState)
    (v : Option ProgressNotification) : AsyncFetchState × Except Error Unit :=
  if poisoned then (s, Except.error Error.PoisonError)
  else ({ s with progress := v }, Except.ok ())

end AsyncFetch

/-- One atomic action on the shared state.  Foreground actions
(`installState`, `resetProgress`, `spawnWorker`) are performed by
`request`; the rest are performed by the worker thread and the relay
thread it spawns. -/
inductive JobAction where
  | installState (params : FetchRequest)
  | resetProgress
  | spawnWorker (params : FetchRequest)
  | writeProgress (p : ProgressNotification)
  | notifyProgress
  | writeResult (r : Nat × String)
  | clearState
  | notifyCompletion
deriving DecidableEq, Repr

/-- Effect of one action on the shared state.  Each case mirrors the slot
mutation performed by the corresponding source call (with a healthy
lock). -/
def applyAction (s : AsyncFetchState) : JobAction → AsyncFetchState
  | JobAction.installState params => { s with state := some ⟨params⟩ }
  | JobAction.resetProgress => { s with progress := none }
  | JobAction.spawnWorker _ => s
  | JobAction.writeProgress p => { s with progress := some p }
  | JobAction.notifyProgress =>
      { s with notifications := s.notifications ++ [AsyncNotification.Fetch] }
  | JobAction.writeResult r => { s with last_result := some r }
  | JobAction.clearState => { s with state := none }
  | JobAction.notifyCompletion =>
      { s with notifications := s.notifications ++ [AsyncNotification.Fetch] }

/-- Run a sequence of actions, in order, from a starting state. -/
def runTrace (s : AsyncFetchState) (l : List JobAction) : AsyncFetchState :=
  l.foldl applyAction s

/-- `AsyncFetch::request` (fetch.rs lines 69-117), up to spawning the
worker.  Returns the shared state after the foreground part of the call,
the list of foreground actions performed (a `spawnWorker` action records
that a worker was spawned and with which parameters), and the call's
return value.  Mirrors the source order: `is_pending()?` guard, early
`Ok(())` when busy, `set_request`, `RemoteProgress::set_progress(..,
None)`, `thread::spawn`. -/
def request (locks : Locks) (s : AsyncFetchState) (params : FetchRequest) :
    AsyncFetchState × List JobAction × Except Error Unit :=
  match AsyncFetch.is_pending locks.state s with
  | Except.error e => (s, [], Except.error e)
  | Except.ok true => (s, [], Except.ok ())
  | Except.ok false =>
    match AsyncFetch.set_request locks.state s params with
    | (s1, Except.error e) => (s1, [], Except.error e)
    | (s1, Except.ok ()) =>
      match AsyncFetch.set_progress locks.progress s1 none with
      | (s2, Except.error e) => (s2, [JobAction.installState params], Except.error e)
      | (s2, Except.ok ()) =>
          (s2,
           [JobAction.installState params, JobAction.resetProgress,
            JobAction.spawnWorker params],
           Except.ok ())

/-- One progress callback made by the operation executor.  Per the
executor contract (spec section 6) `onProgress` is called zero or more times
with `\x7bphase, current, total\x7d`-shaped events; the executor never sends the
terminal sentinel itself (the worker does, at fetch.rs lines 101-103). -/
structure ProgressEvent where
  phase : String
  current : Nat
  total : Nat
deriving DecidableEq, Repr

/-- Inject an executor progress callback into the channel event type. -/
def ProgressEvent.toNotification (e : ProgressEvent) : ProgressNotification :=
  ProgressNotification.Event e.phase e.current e.total

/-- Modelled from the spec: the relay loop spawned by
`RemoteProgress::spawn_receiver_thread` (from `push.rs`), called at
fetch.rs lines 87-92.  Given the FIFO contents of the private progress
channel it receives each event in order: a terminal `Done` makes it exit;
any other event is written into the shared progress slot and followed by a
progress notification (spec section 4.2). -/
def relayTrace : List ProgressNotification → List JobAction
  | [] => []
  | ProgressNotification.Done :: _ => []
  | ProgressNotification.Event phase current total :: rest =>
      JobAction.writeProgress (ProgressNotification.Event phase current total) ::
        JobAction.notifyProgress :: relayTrace rest

/-- The happens-before-ordered trace of shared-state actions performed by
one fault-free worker run (the closure at fetch.rs lines 84-114), given
the progress events the executor emitted and the executor outcome: the
relay drains the channel, whose FIFO contents are the executor's events
followed by the sentinel sent after `fetch_origin` returns; `join`
guarantees every relay action precedes `set_result`; then `clear_request`;
then the completion notification. -/
def workerTrace (evs : List ProgressEvent) (res : Except Error Nat) : List JobAction :=
  relayTrace (evs.map ProgressEvent.toNotification ++ [ProgressNotification.Done]) ++
    [JobAction.writeResult (AsyncFetch.resultRecord res), JobAction.clearState,
     JobAction.notifyCompletion]

/-- Which worker coordination steps fail: the sentinel send at line 101,
the relay join at line 105, the result-slot lock inside `set_result` at
line 107, the state-slot lock inside `clear_request` at line 109, the
completion send at line 111. -/
structure CoordFaults where
  sendDoneFails : Bool
  joinFails : Bool
  resultLockPoisoned : Bool
  stateLockPoisoned : Bool
  notifySendFails : Bool
deriving DecidableEq, Repr

/-- No coordination fault. -/
def CoordFaults.none : CoordFaults := ⟨false, false, false, false, false⟩

/-- Outcome of one worker run: the actions performed on the shared state,
and `some msg` when the run aborted via `.expect(msg)` (fetch.rs lines
101-113) instead of completing. -/
structure WorkerResult where
  trace : List JobAction
  abortMsg : Option String
deriving DecidableEq, Repr

/-- The worker closure of `request` (fetch.rs lines 84-114) with its
coordination faults made explicit.  Each `.expect` aborts the run with its
message, skipping every later step; a fault at step k leaves exactly the
actions of steps before k performed.  When the sentinel send fails the
relay never observes `Done` and only drains the executor's own events. -/
def workerRun (faults : CoordFaults) (evs : List ProgressEvent)
    (res : Except Error Nat) : WorkerResult :=
  if faults.sendDoneFails then
    ⟨relayTrace (evs.map ProgressEvent.toNotification), some "closing send failed"⟩
  else if faults.joinFails then
    ⟨relayTrace (evs.map ProgressEvent.toNotification ++ [ProgressNotification.Done]),
     some "joining thread failed"⟩
  else if faults.resultLockPoisoned then
    ⟨relayTrace (evs.map ProgressEvent.toNotification ++ [ProgressNotification.Done]),
     some "result error"⟩
  else if faults.stateLockPoisoned then
    ⟨relayTrace (evs.map ProgressEvent.toNotification ++ [ProgressNotification.Done]) ++
       [JobAction.writeResult (AsyncFetch.resultRecord res)],
     some "clear error"⟩
  else if faults.notifySendFails then
    ⟨relayTrace (evs.map ProgressEvent.toNotification ++ [ProgressNotification.Done]) ++
       [JobAction.writeResult (AsyncFetch.resultRecord res), JobAction.clearState],
     some "AsyncNotification error"⟩
  else ⟨workerTrace evs res, Option.none⟩

/-! ## Helper lemmas about traces -/

theorem runTrace_append (s : AsyncFetchState) (l1 l2 : List JobAction) :
    runTrace s (l1 ++ l2) = runTrace (runTrace s l1) l2 := by
  simp [runTrace, List.foldl_append]

theorem relayTrace_mem {ch : List ProgressNotification} {a : JobAction}
    (h : a ∈ relayTrace ch) :
    (∃ p, a = JobAction.writeProgress p) ∨ a = JobAction.notifyProgress := by
  induction ch with
  | nil => simp [relayTrace] at h
  | cons e rest ih =>
    cases e with
    | Done => simp [relayTrace] at h
    | Event phase current total =>
      simp only [relayTrace, List.mem_cons] at h
      rcases h with rfl | rfl | h
      · exact Or.inl ⟨_, rfl⟩
      · exact Or.inr rfl
      · exact ih h

theorem clearState_not_mem_relayTrace (ch : List ProgressNotification) :
    JobAction.clearState ∉ relayTrace ch := by
  intro h
  rcases relayTrace_mem h with ⟨p, hp⟩ | hp <;> simp at hp

theorem notifyCompletion_not_mem_relayTrace (ch : List ProgressNotification) :
    JobAction.notifyCompletion ∉ relayTrace ch := by
  intro h
  rcases relayTrace_mem h with ⟨p, hp⟩ | hp <;> simp at hp

theorem writeResult_not_mem_relayTrace (ch : List ProgressNotification)
    (r : Nat × String) : JobAction.writeResult r ∉ relayTrace ch := by
  intro h
  rcases relayTrace_mem h with ⟨p, hp⟩ | hp <;> simp at hp

theorem split_at_clearState (r : Nat × String) :
    ∀ (R l1 l2 : List JobAction), JobAction.clearState ∉ R →
      R ++ [JobAction.writeResult r, JobAction.clearState,
            JobAction.notifyCompletion] =
        l1 ++ JobAction.clearState :: l2 →
      l1 = R ++ [JobAction.writeResult r] ∧ l2 = [JobAction.notifyCompletion] := by
  intro R
  induction R with
  | nil =>
    intro l1 l2 _ h
    cases l1 with
    | nil => simp at h
    | cons a l1t =>
      simp only [List.nil_append, List.cons_append, List.cons.injEq] at h
      obtain ⟨rfl, h⟩ := h
      cases l1t with
      | nil =>
        simp only [List.nil_append, List.cons.injEq] at h
        exact ⟨rfl, h.2.symm⟩
      | cons b l1tt =>
        simp only [List.cons_append, List.cons.injEq] at h
        obtain ⟨rfl, h⟩ := h
        cases l1tt with
        | nil => simp at h
        | cons c l3 => simp at h
  | cons a R ih =>
    intro l1 l2 hnotin h
    cases l1 with
    | nil =>
      simp only [List.cons_append, List.nil_append, List.cons.injEq] at h
      exact absurd (List.mem_cons_self a R) (h.1 ▸ hnotin)
    | cons b l1t =>
      simp only [List.cons_append, List.cons.injEq] at h
      obtain ⟨rfl, h⟩ := h
      have hR : JobAction.clearState ∉ R := fun hm =>
        hnotin (List.mem_cons_of_mem _ hm)
      obtain ⟨h1, h2⟩ := ih l1t l2 hR h
      exact ⟨by rw [h1]; rfl, h2⟩

theorem runTrace_progress_only_last_result :
    ∀ (l : List JobAction) (s : AsyncFetchState),
      (∀ a ∈ l, (∃ p, a = JobAction.writeProgress p) ∨
          a = JobAction.notifyProgress) →
      (runTrace s l).last_result = s.last_result ∧
        (runTrace s l).state = s.state := by
  intro l
  induction l with
  | nil => intro s _; exact ⟨rfl, rfl⟩
  | cons a l ih =>
    intro s hmem
    have ha := hmem a (List.mem_cons_self a l)
    have hrest : ∀ b ∈ l, (∃ p, b = JobAction.writeProgress p) ∨
        b = JobAction.notifyProgress :=
      fun b hb => hmem b (List.mem_cons_of_mem _ hb)
    have : runTrace s (a :: l) = runTrace (applyAction s a) l := rfl
    rw [this]
    obtain ⟨h1, h2⟩ := ih (applyAction s a) hrest
    rcases ha with ⟨p, rfl⟩ | rfl
    · exact ⟨h1.trans rfl, h2.trans rfl⟩
    · exact ⟨h1.trans rfl, h2.trans rfl⟩

/-- Shared helper: after the full fault-free worker trace, the result slot
holds the record for the executor outcome and the state slot is empty. -/
theorem workerTrace_final_state (s : AsyncFetchState) (evs : List ProgressEvent)
    (res : Except Error Nat) :
    (runTrace s (workerTrace evs res)).last_result =
      some (AsyncFetch.resultRecord res) ∧
    (runTrace s (workerTrace evs res)).state = none := by
  have h : runTrace s (workerTrace evs res) =
      applyAction (applyAction (applyAction
        (runTrace s (relayTrace (evs.map ProgressEvent.toNotification ++
          [ProgressNotification.Done])))
        (JobAction.writeResult (AsyncFetch.resultRecord res)))
        JobAction.clearState) JobAction.notifyCompletion := by
    simp [workerTrace, runTrace_append, runTrace]
  rw [h]
  simp [applyAction]

/-! ## Claims -/

/-- C1: a `request(params)` call made while a job is pending (`is_pending()`
returns `true`) returns success immediately and has no observable effect:
the shared state is returned unchanged (no new `FetchState`, progress and
result slots untouched, no notification appended) and no foreground action
— in particular no `spawnWorker` — is performed. -/
theorem c1_request_while_pending_noop (locks : Locks) (s : AsyncFetchState)
    (params : FetchRequest)
    (h : AsyncFetch.is_pending locks.state s = Except.ok true) :
    request locks s params = (s, [], Except.ok ()) := by
  cases hls : locks.state with
  | true => simp [AsyncFetch.is_pending, hls] at h
  | false =>
    simp [AsyncFetch.is_pending, hls] at h
    simp [request, AsyncFetch.is_pending, hls, h]

theorem c1_request_while_pending_noop_witness :
    request Locks.clean
      ⟨some ⟨⟨"origin", "main", none⟩⟩, none, none, []⟩ ⟨"up", "dev", none⟩ =
      (⟨some ⟨⟨"origin", "main", none⟩⟩, none, none, []⟩, [], Except.ok ()) :=
  c1_request_while_pending_noop Locks.clean
    ⟨some ⟨⟨"origin", "main", none⟩⟩, none, none, []⟩ ⟨"up", "dev", none⟩ rfl

/-- C2: the completed-job record (as read back by `last_result()`): on
executor success with metric `m` it is `(m, "")` with the empty message;
on executor failure it is `(0, msg)` with `msg` the error's rendering,
which is non-empty whenever the error renders non-empty. -/
theorem c2_result_shape (s : AsyncFetchState) (m : Nat) (e : Error) :
    AsyncFetch.last_result false
        (AsyncFetch.set_result false s (Except.ok m)).1 =
      Except.ok (some (m, "")) ∧
    (e.message ≠ "" →
      AsyncFetch.last_result false
          (AsyncFetch.set_result false s (Except.error e)).1 =
        Except.ok (some (0, e.message)) ∧
      (AsyncFetch.resultRecord (Except.error e)).2 ≠ "") := by
  constructor
  · simp [AsyncFetch.last_result, AsyncFetch.set_result, AsyncFetch.resultRecord]
  · intro h
    refine ⟨?_, ?_⟩ <;>
      simp [AsyncFetch.last_result, AsyncFetch.set_result,
        AsyncFetch.resultRecord, h]

theorem c2_result_shape_witness :
    AsyncFetch.last_result false
        (AsyncFetch.set_result false AsyncFetch.new
          (Except.error (Error.Generic "auth rejected"))).1 =
      Except.ok (some (0, "auth rejected")) :=
  ((c2_result_shape AsyncFetch.new 512
    (Error.Generic "auth rejected")).2 (by decide)).1

/-- C4: after the worker trace of any admitted job runs to completion —
whatever the executor outcome `res` — the state slot is cleared, so
`is_pending()` returns `false`, and `last_result()` returns `Some` of the
record for `res`; in particular an executor failure (`res =
Except.error e`) never leaves the system pending. -/
theorem c4_completion_resets_pending (s : AsyncFetchState)
    (evs : List ProgressEvent) (res : Except Error Nat) :
    AsyncFetch.is_pending false (runTrace s (workerTrace evs res)) =
      Except.ok false ∧
    AsyncFetch.last_result false (runTrace s (workerTrace evs res)) =
      Except.ok (some (AsyncFetch.resultRecord res)) := by
  obtain ⟨h1, h2⟩ := workerTrace_final_state s evs res
  constructor
  · simp [AsyncFetch.is_pending, h2]
  · simp [AsyncFetch.last_result, h1]

/-- C7: a `request(params)` call made while no job is pending installs a
new `FetchState` holding exactly `params`, resets the progress slot to
unset (so `progress()` returns `none`), and spawns the worker — the
foreground action list records exactly this order — before returning
success. -/
theorem c7_request_admits_when_idle (s : AsyncFetchState)
    (params : FetchRequest) (h : s.state = none) :
    request Locks.clean s params =
      ({ s with state := some ⟨params⟩, progress := none },
       [JobAction.installState params, JobAction.resetProgress,
        JobAction.spawnWorker params],
       Except.ok ()) ∧
    AsyncFetch.progress false (request Locks.clean s params).1 =
      Except.ok none := by
  have h1 : s.state.isSome = false := by rw [h]; rfl
  constructor
  · simp [request, AsyncFetch.is_pending, Locks.clean, h1,
      AsyncFetch.set_request, AsyncFetch.set_progress]
  · simp [request, AsyncFetch.is_pending, Locks.clean, h1,
      AsyncFetch.set_request, AsyncFetch.set_progress, AsyncFetch.progress]

theorem c7_request_admits_when_idle_witness :
    AsyncFetch.progress false
        (request Locks.clean AsyncFetch.new ⟨"origin", "main", none⟩).1 =
      Except.ok none :=
  (c7_request_admits_when_idle AsyncFetch.new ⟨"origin", "main", none⟩ rfl).2

/-- C9: for every public accessor, failure to acquire the lock on a shared
slot is returned to the caller as the recoverable `Error::PoisonError`
value: `is_pending`, `last_result` and `progress` with a poisoned slot
return `Except.error`, and `request` with a poisoned state slot returns
`Except.error` without mutating anything or spawning a worker. -/
theorem c9_lock_failure_recoverable (s : AsyncFetchState)
    (params : FetchRequest) (b c : Bool) :
    AsyncFetch.is_pending true s = Except.error Error.PoisonError ∧
    AsyncFetch.last_result true s = Except.error Error.PoisonError ∧
    AsyncFetch.progress true s = Except.error Error.PoisonError ∧
    request ⟨true, b, c⟩ s params = (s, [], Except.error Error.PoisonError) := by
  refine ⟨rfl, rfl, rfl, ?_⟩
  simp [request, AsyncFetch.is_pending]

/-- Shared helper: a prefix of `M ++ [x]` that contains `x`, where `x`
does not occur in `M`, is the whole list. -/
theorem prefix_with_last {M pfx rest : List JobAction} {x : JobAction}
    (h : pfx ++ rest = M ++ [x]) (hx : x ∉ M) (hmem : x ∈ pfx) :
    pfx = M ++ [x] ∧ rest = [] := by
  rcases List.eq_nil_or_concat rest with rfl | ⟨t, y, rfl⟩
  · exact ⟨by simpa using h, rfl⟩
  · rw [List.concat_eq_append] at h
    have h2 : (pfx ++ t) ++ [y] = M ++ [x] := by
      rw [List.append_assoc]; exact h
    obtain ⟨h3, -⟩ := List.append_inj' h2 rfl
    exact absurd (h3 ▸ List.mem_append_left t hmem) hx

/-- C3: in every fault-free worker trace the three finishing steps occur
in exactly the order result-write, state-clear, completion-notify: at the
unique occurrence of `clearState` the `writeResult` action is already in
the past and the completion notification is the sole remaining action;
consequently any observation point (trace prefix) at which the completion
notification has been emitted already has the result slot at its final
record and the state slot cleared. -/
theorem c3_completion_order (evs : List ProgressEvent)
    (res : Except Error Nat) (s0 : AsyncFetchState) :
    (∀ l1 l2, workerTrace evs res = l1 ++ JobAction.clearState :: l2 →
        JobAction.writeResult (AsyncFetch.resultRecord res) ∈ l1 ∧
        l2 = [JobAction.notifyCompletion]) ∧
    (∀ pfx rest, pfx ++ rest = workerTrace evs res →
        JobAction.notifyCompletion ∈ pfx →
        (runTrace s0 pfx).last_result = some (AsyncFetch.resultRecord res) ∧
        (runTrace s0 pfx).state = none) := by
  constructor
  · intro l1 l2 h
    obtain ⟨h1, h2⟩ := split_at_clearState (AsyncFetch.resultRecord res)
      (relayTrace (evs.map ProgressEvent.toNotification ++
        [ProgressNotification.Done])) l1 l2
      (clearState_not_mem_relayTrace _) h
    refine ⟨?_, h2⟩
    rw [h1]
    exact List.mem_append_right _ (List.mem_cons_self _ _)
  · intro pfx rest h hmem
    have hM : JobAction.notifyCompletion ∉
        relayTrace (evs.map ProgressEvent.toNotification ++
          [ProgressNotification.Done]) ++
        [JobAction.writeResult (AsyncFetch.resultRecord res),
         JobAction.clearState] := by
      intro hm
      rcases List.mem_append.mp hm with hm | hm
      · exact notifyCompletion_not_mem_relayTrace _ hm
      · simp at hm
    have h2 : pfx ++ rest =
        (relayTrace (evs.map ProgressEvent.toNotification ++
          [ProgressNotification.Done]) ++
         [JobAction.writeResult (AsyncFetch.resultRecord res),
          JobAction.clearState]) ++ [JobAction.notifyCompletion] := by
      rw [List.append_assoc]; exact h
    obtain ⟨hpfx, -⟩ := prefix_with_last h2 hM hmem
    rw [hpfx, List.append_assoc]
    exact workerTrace_final_state s0 evs res

theorem c3_completion_order_witness :
    (runTrace AsyncFetch.new
      (workerTrace [⟨"recv", 1, 10⟩] (Except.ok 512))).last_result =
      some (512, "") ∧
    (runTrace AsyncFetch.new
      (workerTrace [⟨"recv", 1, 10⟩] (Except.ok 512))).state = none :=
  (c3_completion_order [⟨"recv", 1, 10⟩] (Except.ok 512) AsyncFetch.new).2
    (workerTrace [⟨"recv", 1, 10⟩] (Except.ok 512)) [] (by simp) (by decide)

/-- C5: the relay is joined before the state slot is cleared, so the
worker trace never writes the progress slot after `clearState`: whenever
the trace splits at `clearState`, no `writeProgress` action occurs in the
remainder. -/
theorem c5_no_progress_write_after_clear (evs : List ProgressEvent)
    (res : Except Error Nat) (l1 l2 : List JobAction)
    (h : workerTrace evs res = l1 ++ JobAction.clearState :: l2)
    (p : ProgressNotification) :
    JobAction.writeProgress p ∉ l2 := by
  obtain ⟨-, rfl⟩ := split_at_clearState (AsyncFetch.resultRecord res)
    (relayTrace (evs.map ProgressEvent.toNotification ++
      [ProgressNotification.Done])) l1 l2
    (clearState_not_mem_relayTrace _) h
  simp

theorem c5_no_progress_write_after_clear_witness :
    JobAction.writeProgress (ProgressNotification.Event "r" 1 2) ∉
      [JobAction.notifyCompletion] :=
  c5_no_progress_write_after_clear [⟨"r", 1, 2⟩] (Except.ok 5)
    [JobAction.writeProgress (ProgressNotification.Event "r" 1 2),
     JobAction.notifyProgress, JobAction.writeResult (5, "")]
    [JobAction.notifyCompletion] rfl (ProgressNotification.Event "r" 1 2)

/-- C6: the sentinel enters the FIFO progress channel only after the
executor call has returned, i.e. behind every event the executor emitted;
consequently the relay writes and announces every executor event, in
emission order, before it observes the sentinel and exits — its action
trace is exactly the per-event write/notify pairs and nothing after. -/
theorem c6_relay_drains_all_events (evs : List ProgressEvent) :
    relayTrace (evs.map ProgressEvent.toNotification ++
      [ProgressNotification.Done]) =
      (evs.map fun e => [JobAction.writeProgress e.toNotification,
        JobAction.notifyProgress]).flatten := by
  induction evs with
  | nil => rfl
  | cons e rest ih =>
    simp [ProgressEvent.toNotification, relayTrace, ih]

/-- C8: if any worker coordination step fails — the sentinel send, the
relay join, the result-slot lock inside `set_result`, the state-slot lock
inside `clear_request`, or the completion send — the worker run aborts
(the corresponding `.expect` fires) instead of completing. -/
theorem c8_coordination_failure_aborts (faults : CoordFaults)
    (evs : List ProgressEvent) (res : Except Error Nat)
    (h : faults.sendDoneFails = true ∨ faults.joinFails = true ∨
      faults.resultLockPoisoned = true ∨ faults.stateLockPoisoned = true ∨
      faults.notifySendFails = true) :
    (workerRun faults evs res).abortMsg.isSome = true := by
  obtain ⟨a, b, c, d, e⟩ := faults
  cases a <;> cases b <;> cases c <;> cases d <;> cases e <;>
    simp_all [workerRun]

theorem c8_coordination_failure_aborts_witness :
    (workerRun ⟨false, true, false, false, false⟩ []
      (Except.ok 0)).abortMsg.isSome = true :=
  c8_coordination_failure_aborts ⟨false, true, false, false, false⟩ []
    (Except.ok 0) (Or.inr (Or.inl rfl))

/-- C10: an admitted `request(params)` call resets only the progress slot,
never the result slot: the state right after admission has the previous
`last_result` unchanged, and it stays unchanged under every prefix of the
new job's relay activity (the new job touches the result slot only at its
own later `writeResult`). -/
theorem c10_admission_preserves_last_result (s : AsyncFetchState)
    (params : FetchRequest) (pfx rest : List JobAction)
    (evs : List ProgressEvent) (h : s.state = none)
    (hpfx : pfx ++ rest = relayTrace (evs.map ProgressEvent.toNotification ++
      [ProgressNotification.Done])) :
    (request Locks.clean s params).1.last_result = s.last_result ∧
    (runTrace (request Locks.clean s params).1 pfx).last_result =
      s.last_result := by
  have h1 : s.state.isSome = false := by rw [h]; rfl
  have hreq : (request Locks.clean s params).1 =
      { s with state := some ⟨params⟩, progress := none } := by
    simp [request, AsyncFetch.is_pending, Locks.clean, h1,
      AsyncFetch.set_request, AsyncFetch.set_progress]
  have hmem : ∀ a ∈ pfx, (∃ p, a = JobAction.writeProgress p) ∨
      a = JobAction.notifyProgress := by
    intro a ha
    exact relayTrace_mem (hpfx ▸ List.mem_append_left rest ha)
  obtain ⟨hl, -⟩ := runTrace_progress_only_last_result pfx
    (request Locks.clean s params).1 hmem
  refine ⟨by simp [hreq], ?_⟩
  rw [hl]
  simp [hreq]

theorem c10_admission_preserves_last_result_witness :
    (runTrace (request Locks.clean AsyncFetch.new ⟨"origin", "main", none⟩).1
      [JobAction.writeProgress (ProgressNotification.Event "recv" 1 10),
       JobAction.notifyProgress]).last_result = none :=
  (c10_admission_preserves_last_result AsyncFetch.new ⟨"origin", "main", none⟩
    [JobAction.writeProgress (ProgressNotification.Event "recv" 1 10),
     JobAction.notifyProgress] [] [⟨"recv", 1, 10⟩] rfl rfl).2
